import Mathlib

/-!
# Verification of the rafx bindings generator (`src/bindings/gen_ast.py`, `src/bindings/gen_rs.py`)

This file gives a shallow embedding of the AST-ingestion stage (`gen_ast.py`:
`ClangAstParser`, `ApiModule` and the data model) and of the name-arbitration /
safe-enum-emission parts of the Rust emitter (`gen_rs.py`: `RustGenerator.strip_rfx`,
`RustGenerator.preprocess`, `RustGenerator.generate_safe_enums`), and proves the
spec's testable properties about them.

Python strings are modelled as Lean `String` (a wrapper around `List Char`), with the
Python string operations (`in`, `replace`, `strip`, `startswith`, `endswith`,
`lower`, `split`) re-implemented over `List Char` so that every definition is
executable by the kernel.  Python dictionaries (insertion ordered) are modelled as
association lists where assignment replaces in place or appends
(`Rafx.ainsert`), faithful to CPython's ordered-dict semantics.  Machine
integers do not occur: CPython integers are arbitrary precision, so enum values
are `Int`.
-/

namespace Rafx

/-! ## Association lists: the model of Python `dict` -/

/-- Python `d[k]` / `d.get(k)`: first (and only, for dict-built lists) binding of `k`. -/
def alookup {κ α : Type} [DecidableEq κ] (k : κ) : List (κ × α) → Option α
  | [] => Option.none
  | (k2, v) :: t => if k2 = k then Option.some v else alookup k t

/-- Python `d[k] = v`: replace the binding in place if the key exists, else append. -/
def ainsert {κ α : Type} [DecidableEq κ] (k : κ) (v : α) : List (κ × α) → List (κ × α)
  | [] => [(k, v)]
  | (k2, v2) :: t => if k2 = k then (k, v) :: t else (k2, v2) :: ainsert k v t

/-! ## Python string primitives over `List Char` -/

/-- Python `needle in hay` (substring containment), on character lists. -/
def isInfixOfL (needle : List Char) : List Char → Bool
  | [] => needle.isEmpty
  | c :: cs => needle.isPrefixOf (c :: cs) || isInfixOfL needle cs

/-- Python `needle in hay` for strings. -/
def pyIn (needle hay : String) : Bool := isInfixOfL needle.data hay.data

/-- Python `s.startswith(p)`. -/
def pyStartsWith (s p : String) : Bool := p.data.isPrefixOf s.data

/-- Python `s.endswith(p)`. -/
def pyEndsWith (s p : String) : Bool := p.data.isSuffixOf s.data

/-- Python `s.lower()` (ASCII; the identifiers involved are ASCII). -/
def pyLower (s : String) : String := ⟨s.data.map Char.toLower⟩

/-- Python `s.strip()` (whitespace at both ends). -/
def pyStripL (l : List Char) : List Char :=
  ((l.dropWhile Char.isWhitespace).reverse.dropWhile Char.isWhitespace).reverse

def pyStrip (s : String) : String := ⟨pyStripL s.data⟩

/-- One step of Python `str.replace`: left-to-right, non-overlapping.  Fuelled by the
length of the subject (each step consumes at least one character for the non-empty
patterns used by the generator), which makes the definition structurally
recursive and hence kernel-computable. -/
def replaceLAux (pat rep : List Char) : Nat → List Char → List Char
  | _, [] => []
  | 0, l => l
  | fuel + 1, c :: cs =>
    if !pat.isEmpty && pat.isPrefixOf (c :: cs) then
      rep ++ replaceLAux pat rep fuel ((c :: cs).drop pat.length)
    else
      c :: replaceLAux pat rep fuel cs

/-- Python `s.replace(pat, rep)` (all occurrences; `pat` is never empty in the source). -/
def pyReplace (s pat rep : String) : String :=
  ⟨replaceLAux pat.data rep.data s.data.length s.data⟩

/-- Python `s.split(sep)[0]` for `sep = "("`: the prefix before the first `(`. -/
def takeBeforeParen (s : String) : String := ⟨s.data.takeWhile (fun c => c ≠ '(')⟩

/-- Python `os.path.basename` (POSIX): everything after the last `/`. -/
def basenameL (l : List Char) : List Char :=
  ((l.reverse.takeWhile (fun c => c ≠ '/')).reverse)

/-- Split at newline characters (the line structure `str.splitlines` exposes on the
`\n`-separated text produced by clang). -/
def splitLinesL : List Char → List (List Char)
  | [] => [[]]
  | c :: cs =>
    if c = '\n' then [] :: splitLinesL cs
    else
      match splitLinesL cs with
      | h :: t => (c :: h) :: t
      | [] => [[c]]

/-- Python `"\n".join(lines)`. -/
def joinLinesL : List (List Char) → List Char
  | [] => []
  | [x] => x
  | x :: xs => x ++ '\n' :: joinLinesL xs

/-- Digits of a regex `\d+` match, as a number (`int` of the matched text). -/
def digitsVal (ds : List Char) : Nat :=
  ds.foldl (fun a c => a * 10 + (c.toNat - '0'.toNat)) 0

/-- Longest digit prefix, with the rest of the list. -/
def takeDigits : List Char → List Char × List Char
  | [] => ([], [])
  | c :: cs =>
    if c.isDigit then
      let p := takeDigits cs
      (c :: p.1, p.2)
    else ([], c :: cs)

/-- Try to match the regex `\[(\d+)\]` at the head of the list; on success return the
captured number and the remainder after the match. -/
def matchDim (l : List Char) : Option (Nat × List Char) :=
  match l with
  | '[' :: rest =>
    match takeDigits rest with
    | ([], _) => Option.none
    | (ds, ']' :: rest2) => Option.some (digitsVal ds, rest2)
    | (_, _) => Option.none
  | _ => Option.none

/-- Python `re.findall(r"\[(\d+)\]", t)` (as numbers): scan left to right, on a match
continue after it, otherwise advance one character.  Fuelled by the length of the
list (a match always consumes at least three characters). -/
def findDimsAux : Nat → List Char → List Nat
  | _, [] => []
  | 0, _ => []
  | fuel + 1, c :: cs =>
    match matchDim (c :: cs) with
    | Option.some (n, rest) => n :: findDimsAux fuel rest
    | Option.none => findDimsAux fuel cs

def findDims (l : List Char) : List Nat := findDimsAux l.length l

/-- Python `re.sub(r"\[\d+\]", "", t)`: same scan, deleting every match. -/
def removeDimsAux : Nat → List Char → List Char
  | _, [] => []
  | 0, l => l
  | fuel + 1, c :: cs =>
    match matchDim (c :: cs) with
    | Option.some (_, rest) => removeDimsAux fuel rest
    | Option.none => c :: removeDimsAux fuel cs

def removeDims (l : List Char) : List Char := removeDimsAux l.length l

/-! ## The data model of `gen_ast.py` (the dataclasses and `ApiModule`) -/

/-- `gen_ast.TypeInfo`.  `array_size`/`array_size_2d` are `Optional[int]`. -/
structure TypeInfo where
  name : String
  is_pointer : Bool := false
  is_const : Bool := false
  array_size : Option Nat := Option.none
  array_size_2d : Option Nat := Option.none
deriving DecidableEq, Repr

/-- `gen_ast.EnumValue`. -/
structure EnumValue where
  name : String
  value : Int
  comment : Option String := Option.none
deriving DecidableEq, Repr

/-- `gen_ast.Enum`. -/
structure Enum where
  name : String
  underlying_type : String
  values : List EnumValue := []
  is_anonymous : Bool := false
  is_bitflags : Bool := false
  comment : Option String := Option.none
  ast_id : Option Nat := Option.none
deriving DecidableEq, Repr

/-- `gen_ast.Field`. -/
structure Field where
  name : String
  type_info : TypeInfo
  comment : Option String := Option.none
deriving DecidableEq, Repr

/-- `gen_ast.Struct`.  The Python field `is_opaque` is spelt `isOpaque` here. -/
structure Struct where
  name : String
  fields : List Field := []
  is_union : Bool := false
  isOpaque : Bool := false
  comment : Option String := Option.none
deriving DecidableEq, Repr

/-- `gen_ast.Function`. -/
structure Function where
  name : String
  ret_type : TypeInfo
  params : List Field := []
  comment : Option String := Option.none
deriving DecidableEq, Repr

/-- `gen_ast.Typedef`. -/
structure Typedef where
  name : String
  target_type : TypeInfo
  comment : Option String := Option.none
deriving DecidableEq, Repr

/-- `gen_ast.ApiModule`: ordered enum list plus id index, name-keyed ordered struct
map, ordered function and typedef lists. -/
structure ApiModule where
  enums : List Enum := []
  enum_map : List (Nat × Enum) := []
  structs_map : List (String × Struct) := []
  functions : List Function := []
  typedefs : List Typedef := []
deriving DecidableEq, Repr

/-- `ApiModule.add_struct`: a stored struct is replaced only when the stored one is
opaque and the incoming one is not; a new name is simply inserted. -/
def ApiModule.add_struct (m : ApiModule) (s : Struct) : ApiModule :=
  match alookup s.name m.structs_map with
  | Option.some existing =>
    if existing.isOpaque && !s.isOpaque then
      { m with structs_map := ainsert s.name s m.structs_map }
    else m
  | Option.none => { m with structs_map := ainsert s.name s m.structs_map }

/-- `ApiModule.add_enum`: append to the ordered list, and index by `ast_id` when that
id is truthy (present and nonzero). -/
def ApiModule.add_enum (m : ApiModule) (e : Enum) : ApiModule :=
  { m with
    enums := m.enums ++ [e]
    enum_map :=
      match e.ast_id with
      | Option.some i => if i ≠ 0 then ainsert i e m.enum_map else m.enum_map
      | Option.none => m.enum_map }

/-! ## The clang AST tree

A JSON node of the clang `-ast-dump=json` output, restricted to the keys the
ingestion engine reads.  `Option` distinguishes a missing key from a present one
(`inner : Option (List AstNode)` because `index_nodes` and
`resolve_underlying_decl` test `"inner" in node`).  The `loc` value is a JSON
object modelled as an association list (Python treats the empty object as falsy,
and `is_valid_loc` tests `"file" in loc`).  `value` carries the integer of an
`IntegerLiteral`, `qualType` flattens `node["type"]["qualType"]`, and
`fixedUnderlyingType` flattens `node["fixedUnderlyingType"]["qualType"]`. -/
inductive AstNode : Type where
  | node
    (kind : String)
    (name : Option String)
    (id : Option Nat)
    (loc : Option (List (String × String)))
    (qualType : Option String)
    (opcode : Option String)
    (value : Option Int)
    (text : Option String)
    (completeDefinition : Bool)
    (tagUsed : Option String)
    (fixedUnderlyingType : Option String)
    (ownedTagDecl : Option AstNode)
    (inner : Option (List AstNode))

def AstNode.kind : AstNode → String
  | .node k _ _ _ _ _ _ _ _ _ _ _ _ => k

def AstNode.name : AstNode → Option String
  | .node _ n _ _ _ _ _ _ _ _ _ _ _ => n

def AstNode.id : AstNode → Option Nat
  | .node _ _ i _ _ _ _ _ _ _ _ _ _ => i

def AstNode.loc : AstNode → Option (List (String × String))
  | .node _ _ _ l _ _ _ _ _ _ _ _ _ => l

def AstNode.qualType : AstNode → Option String
  | .node _ _ _ _ q _ _ _ _ _ _ _ _ => q

def AstNode.opcode : AstNode → Option String
  | .node _ _ _ _ _ o _ _ _ _ _ _ _ => o

def AstNode.value : AstNode → Option Int
  | .node _ _ _ _ _ _ v _ _ _ _ _ _ => v

def AstNode.text : AstNode → Option String
  | .node _ _ _ _ _ _ _ t _ _ _ _ _ => t

def AstNode.completeDefinition : AstNode → Bool
  | .node _ _ _ _ _ _ _ _ c _ _ _ _ => c

def AstNode.tagUsed : AstNode → Option String
  | .node _ _ _ _ _ _ _ _ _ u _ _ _ => u

def AstNode.fixedUnderlyingType : AstNode → Option String
  | .node _ _ _ _ _ _ _ _ _ _ f _ _ => f

def AstNode.ownedTagDecl : AstNode → Option AstNode
  | .node _ _ _ _ _ _ _ _ _ _ _ d _ => d

def AstNode.inner : AstNode → Option (List AstNode)
  | .node _ _ _ _ _ _ _ _ _ _ _ _ i => i

/-- A convenience constructor for nodes where only the commonly used keys are
present; the remaining keys (`text`, `completeDefinition`, `tagUsed`,
`fixedUnderlyingType`, `ownedTagDecl`) are absent/false. -/
def mkNode (kind : String) (name : Option String) (id : Option Nat)
    (loc : Option (List (String × String))) (qualType : Option String)
    (opcode : Option String) (value : Option Int)
    (inner : Option (List AstNode)) : AstNode :=
  AstNode.node kind name id loc qualType opcode value Option.none false
    Option.none Option.none Option.none inner

/-! ## `ClangAstParser` (the ingestion engine of `gen_ast.py`) -/

namespace ClangAstParser

/-- The `type_map` table built in `ClangAstParser.__init__`. -/
def type_map : List (String × String) :=
  [("unsigned int", "u32"), ("uint32_t", "u32"), ("int", "i32"), ("int32_t", "i32"),
   ("unsigned char", "u8"), ("uint8_t", "u8"), ("signed char", "i8"), ("int8_t", "i8"),
   ("char", "c_char"), ("unsigned short", "u16"), ("uint16_t", "u16"),
   ("short", "i16"), ("int16_t", "i16"), ("unsigned long long", "u64"),
   ("uint64_t", "u64"), ("long long", "i64"), ("int64_t", "i64"),
   ("float", "f32"), ("double", "f64"), ("void", "c_void"), ("_Bool", "bool"),
   ("bool", "bool"), ("size_t", "usize"), ("intptr_t", "isize"),
   ("uintptr_t", "usize"), ("ptrdiff_t", "isize")]

/-- The `ignore_names` set built in `ClangAstParser.__init__`. -/
def ignore_names : List String :=
  ["va_list", "__builtin_va_list", "__va_list_tag", "wchar_t", "max_align_t",
   "__va_start", "__security_init_cookie", "__security_check_cookie",
   "__report_gsfailure"]

/-- `self.header_filename = os.path.basename(header_file).replace("\\", "/").lower()`. -/
def headerFilenameOf (header_file : String) : String :=
  pyLower (pyReplace ⟨basenameL header_file.data⟩ "\\" "/")

/-- `ClangAstParser.is_valid_loc`, with the header filename as a parameter: a node
passes the filter when its `loc` object is present and truthy and either carries no
`file` key or carries one whose normalized, lowercased text ends with the header's
filename.  A node without a `loc` key (or with an empty `loc` object, which Python
treats as falsy) is rejected. -/
def is_valid_loc (header_filename : String) (node : AstNode) : Bool :=
  match node.loc with
  | Option.none => false
  | Option.some loc =>
    if loc.isEmpty then false
    else
      match alookup "file" loc with
      | Option.none => true
      | Option.some f => pyEndsWith (pyLower (pyReplace f "\\" "/")) header_filename

mutual

/-- `ClangAstParser.extract_comment_text`: concatenate the `text` of every
`TextComment` descendant. -/
def extract_comment_text (node : AstNode) : String :=
  match node with
  | .node kind _ _ _ _ _ _ text _ _ _ _ inner =>
    if kind = "TextComment" then text.getD ""
    else
      match inner with
      | Option.some children => extractCommentTextList children
      | Option.none => ""

def extractCommentTextList : List AstNode → String
  | [] => ""
  | c :: cs => extract_comment_text c ++ extractCommentTextList cs

end

/-- One line of `ClangAstParser.clean_comment`: strip, then drop one leading `*`. -/
def cleanCommentLine (line : String) : String :=
  let line := pyStrip line
  if pyStartsWith line "*" then pyStrip ⟨line.data.drop 1⟩ else line

/-- `ClangAstParser.clean_comment`: `None` for a falsy input, else each line
stripped and de-starred, re-joined and stripped.  (Lines are split at `'\n'`;
CPython's `splitlines` drops a trailing empty line, but the final `strip` makes
the composition agree on the newline-separated text clang produces.) -/
def clean_comment (raw_comment : String) : Option String :=
  if raw_comment = "" then Option.none
  else
    Option.some
      (pyStrip ⟨joinLinesL ((splitLinesL raw_comment.data).map
        (fun ln => (cleanCommentLine ⟨ln⟩).data))⟩)

/-- The supported binary operators of `ClangAstParser.evaluate_expr`.  `none` means
either an unsupported opcode or an operation whose Python evaluation raises (a
negative shift count, or division by zero) — both fall back to the left operand.
Python `/` is float division truncated by `int(...)`; on the integer ranges
handled here that is truncation toward zero, `Int.div`.  `>>` on CPython ints is
an arithmetic (floor) shift, `Int.fdiv` by a power of two; `|` and `&` act on
infinite two's complement, `Int.lor`/`Int.land`. -/
def applyOp (op : String) (l r : Int) : Option Int :=
  if op = "<<" then (if r < 0 then Option.none else Option.some (l * 2 ^ r.toNat))
  else if op = ">>" then (if r < 0 then Option.none else Option.some (Int.fdiv l (2 ^ r.toNat)))
  else if op = "|" then Option.some (Int.lor l r)
  else if op = "&" then Option.some (Int.land l r)
  else if op = "+" then Option.some (l + r)
  else if op = "-" then Option.some (l - r)
  else if op = "*" then Option.some (l * r)
  else if op = "/" then (if r = 0 then Option.none else Option.some (Int.tdiv l r))
  else Option.none

/-- The comment kinds filtered out of `inner` by `evaluate_expr`. -/
def isCommentKind (c : AstNode) : Bool :=
  c.kind = "FullComment" || c.kind = "TextComment"

mutual

/-- `ClangAstParser.evaluate_expr`.  An `IntegerLiteral` yields its value; a node
with non-comment children yields, for a `BinaryOperator` with at least two such
children, the operator applied to the first two child values (falling back to the
first child's value on an unsupported operator or a raising evaluation), and
otherwise the first child's value; a node with no non-comment children yields 0.
`evalTwo` returns the values of the first two non-comment children (the second
eagerly — the evaluation is pure, so this agrees with Python's lazy `r`). -/
def evaluate_expr (node : AstNode) : Int :=
  match node with
  | .node kind _ _ _ _ opcode value _ _ _ _ _ inner =>
    if kind = "IntegerLiteral" then value.getD 0
    else
      match inner with
      | Option.none => 0
      | Option.some children =>
        match evalTwo children with
        | Option.none => 0
        | Option.some (l, second) =>
          if kind = "BinaryOperator" then
            match second with
            | Option.some r =>
              match applyOp (opcode.getD "") l r with
              | Option.some v => v
              | Option.none => l
            | Option.none => l
          else l

def evalTwo : List AstNode → Option (Int × Option Int)
  | [] => Option.none
  | c :: cs =>
    if isCommentKind c then evalTwo cs
    else Option.some (evaluate_expr c, evalSecond cs)

def evalSecond : List AstNode → Option Int
  | [] => Option.none
  | c :: cs =>
    if isCommentKind c then evalSecond cs
    else Option.some (evaluate_expr c)

end

/-- `ClangAstParser.parse_type`: extract up to two `[N]` array suffixes (one
suffix fills `array_size`; two fill `array_size_2d` with the outer and
`array_size` with the inner; three or more fill neither), strip the suffixes,
`const `, `*`, and tag keywords, and canonicalize through `type_map`. -/
def parse_type (qual_type : String) : TypeInfo :=
  let dims := findDims qual_type.data
  let sizes : Option Nat × Option Nat :=
    match dims with
    | [] => (Option.none, Option.none)
    | [d] => (Option.some d, Option.none)
    | [d2, d1] => (Option.some d1, Option.some d2)
    | _ => (Option.none, Option.none)
  let t : String := if dims.length > 0 then pyStrip ⟨removeDims qual_type.data⟩ else qual_type
  let is_const := pyIn "const " t
  let t := pyStrip (pyReplace t "const " "")
  let is_pointer := pyIn "*" t
  let t := pyStrip (pyReplace t "*" "")
  let t := pyStrip (pyReplace (pyReplace (pyReplace t "struct " "") "union " "") "enum " "")
  let t := (alookup t type_map).getD t
  ⟨t, is_pointer, is_const, sizes.1, sizes.2⟩

/-- The mutable state of a `ClangAstParser` instance during one `parse` run: the
module under construction, the `processed_ids` set (Python adds `node.get("id")`,
which may be `None`), and the `node_index` built by `index_nodes`. -/
structure ParserState where
  module : ApiModule
  processed_ids : List (Option Nat)
  node_index : List (Nat × AstNode)

mutual

/-- `ClangAstParser.index_nodes`: walk the whole tree and record every node that
carries an `id`, overwriting an existing entry only when the new node has an
`inner` key.  The node's own entry is recorded before its `ownedTagDecl` and
`inner` values are visited (the order in which clang emits those keys). -/
def index_nodes (idx : List (Nat × AstNode)) (n : AstNode) : List (Nat × AstNode) :=
  match n with
  | .node _ _ id _ _ _ _ _ _ _ _ otd inner =>
    let idx1 :=
      match id with
      | Option.some i =>
        if (alookup i idx).isNone || inner.isSome then ainsert i n idx else idx
      | Option.none => idx
    let idx2 :=
      match otd with
      | Option.some d => index_nodes idx1 d
      | Option.none => idx1
    match inner with
    | Option.some cs => indexNodesList idx2 cs
    | Option.none => idx2

def indexNodesList (idx : List (Nat × AstNode)) : List AstNode → List (Nat × AstNode)
  | [] => idx
  | c :: cs => indexNodesList (index_nodes idx c) cs

end

/-- The stub-resolution step shared by both branches of
`ClangAstParser.resolve_underlying_decl`: an `ownedTagDecl` that has an `id`, no
`inner`, and an entry in `node_index` is replaced by the indexed node. -/
def resolveStub (idx : List (Nat × AstNode)) (decl : AstNode) : AstNode :=
  match decl.id with
  | Option.some i =>
    if decl.inner.isNone then
      match alookup i idx with
      | Option.some d => d
      | Option.none => decl
    else decl
  | Option.none => decl

/-- The child scan of `ClangAstParser.resolve_underlying_decl`: the first
`RecordDecl`/`EnumDecl` child, or the resolved `ownedTagDecl` of the first
`ElaboratedType` child that has one. -/
def scanChildren (idx : List (Nat × AstNode)) : List AstNode → Option AstNode
  | [] => Option.none
  | c :: cs =>
    if c.kind = "RecordDecl" || c.kind = "EnumDecl" then Option.some c
    else
      if c.kind = "ElaboratedType" then
        match c.ownedTagDecl with
        | Option.some decl => Option.some (resolveStub idx decl)
        | Option.none => scanChildren idx cs
      else scanChildren idx cs

/-- `ClangAstParser.resolve_underlying_decl`. -/
def resolve_underlying_decl (idx : List (Nat × AstNode)) (n : AstNode) : Option AstNode :=
  match n.ownedTagDecl with
  | Option.some decl => Option.some (resolveStub idx decl)
  | Option.none =>
    match n.inner with
    | Option.some cs => scanChildren idx cs
    | Option.none => Option.none

mutual

/-- `ClangAstParser.visit_record`: skip already-processed ids and nameless records,
mark the id processed, and store either an opaque struct (no complete-definition
marker and no field/nested-record child) or a complete one with its parsed
fields.  Nested anonymous records are visited (and hence stored) by
`parseFieldsList` before the outer struct is stored, as in the source. -/
def visit_record (st : ParserState) (n : AstNode) (forced_name : Option String)
    (comment : Option String) : ParserState :=
  match n with
  | .node _ name id _ _ _ _ _ completeDefinition tagUsed _ _ inner =>
    if st.processed_ids.contains id then st
    else
      let effName :=
        match forced_name with
        | Option.some f => if f = "" then name.getD "" else f
        | Option.none => name.getD ""
      if effName = "" then st
      else
        let st1 : ParserState := { st with processed_ids := st.processed_ids ++ [id] }
        let is_union := tagUsed = Option.some "union"
        match inner with
        | Option.none =>
          -- no `inner` key: no field children, so completeness is the explicit marker
          -- and a complete record parses its fields over the empty child list
          if !completeDefinition then
            { st1 with module := st1.module.add_struct ⟨effName, [], is_union, true, comment⟩ }
          else
            { st1 with module := st1.module.add_struct ⟨effName, [], is_union, false, comment⟩ }
        | Option.some children =>
          let has_fields := children.any (fun c => c.kind = "FieldDecl" || c.kind = "RecordDecl")
          let is_complete := completeDefinition || has_fields
          if !is_complete then
            { st1 with module := st1.module.add_struct ⟨effName, [], is_union, true, comment⟩ }
          else
            let res := parseFieldsList st1 children effName Option.none []
            { res.1 with
              module := res.1.module.add_struct ⟨effName, res.2, is_union, false, comment⟩ }

/-- The loop body of `ClangAstParser.parse_fields`, threading the parser state (a
nested anonymous record is visited as `<parent>_Data` / `AnonymousInner`), the
pending per-field comment, and the accumulated field list. -/
def parseFieldsList (st : ParserState) (children : List AstNode) (parent_name : String)
    (comment : Option String) (acc : List Field) : ParserState × List Field :=
  match children with
  | [] => (st, acc)
  | c :: cs =>
    if c.kind = "FullComment" then
      parseFieldsList st cs parent_name (clean_comment (extract_comment_text c)) acc
    else
      if c.kind = "RecordDecl" && (c.name.getD "") = "" then
        let nested := if parent_name ≠ "" then parent_name ++ "_Data" else "AnonymousInner"
        let st2 := visit_record st c (Option.some nested) comment
        parseFieldsList st2 cs parent_name Option.none
          (acc ++ [⟨"data", ⟨nested, false, false, Option.none, Option.none⟩, comment⟩])
      else
        if c.kind = "FieldDecl" then
          let acc2 :=
            if (c.name.getD "") ≠ "" then
              acc ++ [⟨c.name.getD "", parse_type (c.qualType.getD ""), comment⟩]
            else acc
          parseFieldsList st cs parent_name Option.none acc2
        else parseFieldsList st cs parent_name comment acc

end

/-- The small-integer names of the `RFX_ENUM` tracker heuristic in
`ClangAstParser.visit_typedef`. -/
def trackerIntNames : List String := ["u8", "u16", "u32", "u64", "i8", "i16", "i32", "i64"]

/-- The enum-constant loop of `ClangAstParser.visit_enum`: a `FullComment` child
buffers a per-constant comment; an `EnumConstantDecl` takes its initializer's
folded value when it has any non-`FullComment` child, else the running
`next_val`; other kinds leave the buffer untouched. -/
def enumValueLoop : List AstNode → Int → Option String → List EnumValue
  | [], _, _ => []
  | c :: cs, next_val, val_comment =>
    if c.kind = "FullComment" then
      enumValueLoop cs next_val (clean_comment (extract_comment_text c))
    else
      if c.kind = "EnumConstantDecl" then
        let expr_nodes := (c.inner.getD []).filter (fun x => x.kind ≠ "FullComment")
        let val := if expr_nodes.isEmpty then next_val else evaluate_expr c
        ⟨c.name.getD "", val, val_comment⟩ :: enumValueLoop cs (val + 1) Option.none
      else enumValueLoop cs next_val val_comment

/-- `ClangAstParser.visit_enum`: the name falls back to the inferred (tracker or
typedef) name; the underlying type comes from `fixedUnderlyingType`, else from the
inferred type, else `"u32"`, then through `type_map`; values come from
`enumValueLoop`; the bit-flags classification is a pure substring test of the
name against `"Flags"` and `"Bits"`. -/
def visit_enum (st : ParserState) (n : AstNode) (comment : Option String)
    (inferred_name : Option String) (inferred_type : Option String) : ParserState :=
  let name0 := n.name.getD ""
  let name :=
    if name0 = "" then
      match inferred_name with
      | Option.some s => s
      | Option.none => ""
    else name0
  let fixed :=
    match n.fixedUnderlyingType with
    | Option.some q => q
    | Option.none =>
      match inferred_type with
      | Option.some t => if t = "" then "u32" else t
      | Option.none => "u32"
  let fixed := (alookup fixed type_map).getD fixed
  let values := enumValueLoop (n.inner.getD []) 0 Option.none
  let is_bitflags := name ≠ "" && (pyIn "Flags" name || pyIn "Bits" name)
  { st with module := st.module.add_enum ⟨name, fixed, values, name = "", is_bitflags, comment, n.id⟩ }

/-- The tail of `ClangAstParser.visit_typedef` past the underlying-decl branches:
record the typedef unless it is a known primitive spelling or a no-op, and set
the `RFX_ENUM` tracker exactly when the target is a non-pointer small
fixed-width integer. -/
def visitTypedefTarget (st : ParserState) (n : AstNode) (name : String)
    (comment : Option String) : ParserState × Option String :=
  let target := parse_type (n.qualType.getD "")
  let st2 :=
    if (alookup name type_map).isNone && (target.name ≠ name || target.is_pointer) then
      { st with module := { st.module with typedefs := st.module.typedefs ++ [⟨name, target, comment⟩] } }
    else st
  let tracker2 :=
    if !target.is_pointer && trackerIntNames.contains target.name then Option.some name
    else Option.none
  (st2, tracker2)

/-- `ClangAstParser.visit_typedef`, returning the updated state together with the
new value of the `last_typedef` tracker cell.  An ignored or nameless typedef
leaves the tracker untouched; a typedef resolving to a record or enum visits it
under the typedef's name and clears the tracker; otherwise `visitTypedefTarget`
applies. -/
def visit_typedef (st : ParserState) (n : AstNode) (comment : Option String)
    (tracker : Option String) : ParserState × Option String :=
  let name := n.name.getD ""
  if name = "" || ignore_names.contains name then (st, tracker)
  else
    let underlying := resolve_underlying_decl st.node_index n
    match underlying with
    | Option.some u =>
      if u.kind = "RecordDecl" then
        (visit_record st u (Option.some name) comment, Option.none)
      else
        if u.kind = "EnumDecl" then
          (visit_enum st u comment (Option.some name) Option.none, Option.none)
        else
          visitTypedefTarget st n name comment
    | Option.none => visitTypedefTarget st n name comment

/-- `ClangAstParser.visit_function`: skip empty, ignore-listed and
`operator`-containing names; the return type is the text before the first `(`;
parameters are the `ParmVarDecl` children in order, unnamed ones called `arg`. -/
def visit_function (st : ParserState) (n : AstNode) (comment : Option String) : ParserState :=
  let name := n.name.getD ""
  if name = "" || ignore_names.contains name || pyIn "operator" name then st
  else
    let ret := parse_type (pyStrip (takeBeforeParen (n.qualType.getD "")))
    let params := ((n.inner.getD []).filter (fun c => c.kind = "ParmVarDecl")).map
      (fun c => (⟨c.name.getD "arg", parse_type (c.qualType.getD ""), Option.none⟩ : Field))
    { st with module := { st.module with functions := st.module.functions ++ [⟨name, ret, params, comment⟩] } }

/-- The top-level declaration loop of `ClangAstParser.parse`: the location filter
clears the pending comment and the tracker; a `FullComment` buffers the comment;
record/typedef/enum/function nodes dispatch to their visitors (an `EnumDecl`
receives the tracker as its inferred name); the pending comment survives only
linkage/visibility annotation nodes. -/
def parseLoop (hdr : String) (st : ParserState) (comment : Option String)
    (tracker : Option String) : List AstNode → ParserState
  | [] => st
  | n :: rest =>
    if !is_valid_loc hdr n then parseLoop hdr st Option.none Option.none rest
    else
      let kind := n.kind
      if kind = "FullComment" then
        parseLoop hdr st (clean_comment (extract_comment_text n)) tracker rest
      else
        let step : ParserState × Option String :=
          if kind = "RecordDecl" then (visit_record st n Option.none comment, Option.none)
          else
            if kind = "TypedefDecl" then visit_typedef st n comment tracker
            else
              if kind = "EnumDecl" then (visit_enum st n comment tracker Option.none, Option.none)
              else
                if kind = "FunctionDecl" then (visit_function st n comment, Option.none)
                else (st, tracker)
        let comment2 :=
          if kind = "DLLImportAttr" || kind = "DLLExportAttr" || kind = "VisibilityAttr" then
            comment
          else Option.none
        parseLoop hdr step.1 comment2 step.2 rest

/-- `ClangAstParser.parse` after the external compiler call: index the tree, then
run the declaration loop over the root's `inner` list starting from a fresh
empty module, empty processed-id set, empty comment buffer and empty tracker. -/
def parse (header_file : String) (data : AstNode) : ApiModule :=
  let hdr := headerFilenameOf header_file
  let idx := index_nodes [] data
  let st0 : ParserState := ⟨{}, [], idx⟩
  (parseLoop hdr st0 Option.none Option.none (data.inner.getD [])).module

end ClangAstParser

/-! ## `RustGenerator` (`gen_rs.py`): name arbitration and safe-enum emission -/

namespace RustGenerator

/-- Drop one leading `_` — the `_?` tail of the prefix regex. -/
def dropUnderscoreL : List Char → List Char
  | [] => []
  | c :: rest => if c = '_' then rest else c :: rest

/-- `re.sub(r"^(rfx|RFX|Rfx)_?", "", name)` on the character list: the three
alternatives are mutually exclusive three-character prefixes, each optionally
followed by one underscore. -/
def stripRfxL : List Char → List Char
  | c1 :: c2 :: c3 :: rest =>
    if (c1 = 'r' ∧ c2 = 'f' ∧ c3 = 'x') ∨ (c1 = 'R' ∧ c2 = 'F' ∧ c3 = 'X') ∨
        (c1 = 'R' ∧ c2 = 'f' ∧ c3 = 'x') then
      dropUnderscoreL rest
    else c1 :: c2 :: c3 :: rest
  | l => l

/-- `RustGenerator.strip_rfx`. -/
def strip_rfx (name : String) : String := ⟨stripRfxL name.data⟩

/-- The keys of the `primitives` table built in `RustGenerator.__init__`. -/
def primitives : List String :=
  ["u8", "u16", "u32", "u64", "i8", "i16", "i32", "i64", "f32", "f64",
   "bool", "usize", "isize", "c_char", "c_void"]

/-- Add to a Python `set` modelled as a duplicate-free list (the set is only ever
iterated through `sorted(...)`, so the insertion position is irrelevant). -/
def setAdd (x : String) (l : List String) : List String :=
  if x ∈ l then l else l ++ [x]

/-- The handle-type collection of `RustGenerator.preprocess`: every opaque struct
name, plus every typedef whose target is a pointer to a non-primitive. -/
def handleTypesOf (m : ApiModule) : List String :=
  let fromStructs := m.structs_map.foldl
    (fun acc p => if p.2.isOpaque then setAdd p.1 acc else acc) []
  m.typedefs.foldl
    (fun acc td =>
      if td.target_type.is_pointer && !(primitives.contains td.target_type.name) then
        setAdd td.name acc
      else acc)
    fromStructs

/-- The union-type collection of `RustGenerator.preprocess` (used by the
debug-printability heuristic, not by naming). -/
def unionTypesOf (m : ApiModule) : List String :=
  m.structs_map.foldl (fun acc p => if p.2.is_union then setAdd p.1 acc else acc) []

/-- Lexicographic code-point comparison (Python `<` on strings). -/
def lexLt : List Char → List Char → Bool
  | [], [] => false
  | [], _ :: _ => true
  | _ :: _, [] => false
  | a :: as, b :: bs =>
    if a.toNat < b.toNat then true
    else if b.toNat < a.toNat then false
    else lexLt as bs

def pyStrLt (a b : String) : Bool := lexLt a.data b.data

/-- Stable ascending insertion (Python `sorted` on the unique names of a set). -/
def insertSorted (x : String) : List String → List String
  | [] => [x]
  | y :: t => if pyStrLt y x then y :: insertSorted x t else x :: y :: t

def sortStrings (l : List String) : List String := l.foldr insertSorted []

/-- The struct-map keys in insertion order (`self.module.structs_map.keys()`). -/
def structsKeys (m : ApiModule) : List String := m.structs_map.map (fun p => p.1)

/-- The handle pass of `RustGenerator.preprocess`: every handle (in sorted order)
gets its bare stripped name, unconditionally, and claims it in
`used_safe_names`. -/
def handleLoop : List String → List (String × String) → List (String × String) →
    List (String × String) × List (String × String)
  | [], nm, used => (nm, used)
  | h :: t, nm, used =>
    handleLoop t (ainsert h (strip_rfx h) nm) (ainsert (strip_rfx h) "handle" used)

/-- The struct pass of `RustGenerator.preprocess`: names already mapped (the
handles) are skipped; a stripped name already claimed gains the suffix
`Struct`. -/
def structLoop : List String → List (String × String) → List (String × String) →
    List (String × String) × List (String × String)
  | [], nm, used => (nm, used)
  | s :: t, nm, used =>
    match alookup s nm with
    | Option.some _ => structLoop t nm used
    | Option.none =>
      let safe := strip_rfx s
      let safe := if (alookup safe used).isSome then safe ++ "Struct" else safe
      structLoop t (ainsert s safe nm) (ainsert safe "struct" used)

/-- The enum pass of `RustGenerator.preprocess`: anonymous or nameless enums and
names already mapped are skipped; a claimed stripped name gains `Flags` (when
the raw name contains `Flags`) or `Enum`, unless it already ends with that
suffix. -/
def enumLoop : List Enum → List (String × String) → List (String × String) →
    List (String × String) × List (String × String)
  | [], nm, used => (nm, used)
  | e :: t, nm, used =>
    if e.is_anonymous || e.name = "" then enumLoop t nm used
    else
      match alookup e.name nm with
      | Option.some _ => enumLoop t nm used
      | Option.none =>
        let safe := strip_rfx e.name
        let safe :=
          if (alookup safe used).isSome then
            let suffix := if pyIn "Flags" e.name then "Flags" else "Enum"
            if pyEndsWith safe suffix then safe else safe ++ suffix
          else safe
        enumLoop t (ainsert e.name safe nm) (ainsert safe "enum" used)

/-- The typedef pass of `RustGenerator.preprocess`: names already mapped are
skipped; a claimed stripped name gains the suffix `Type`. -/
def typedefLoop : List Typedef → List (String × String) → List (String × String) →
    List (String × String) × List (String × String)
  | [], nm, used => (nm, used)
  | td :: t, nm, used =>
    match alookup td.name nm with
    | Option.some _ => typedefLoop t nm used
    | Option.none =>
      let safe := strip_rfx td.name
      let safe := if (alookup safe used).isSome then safe ++ "Type" else safe
      typedefLoop t (ainsert td.name safe nm) (ainsert safe "typedef" used)

/-- The `name_map` produced by `RustGenerator.preprocess`: handles first (sorted),
then the remaining structs (sorted keys), then the named enums (declaration
order), then the remaining typedefs (declaration order). -/
def preprocessNameMap (m : ApiModule) : List (String × String) :=
  let p1 := handleLoop (sortStrings (handleTypesOf m)) [] []
  let p2 := structLoop (sortStrings (structsKeys m)) p1.1 p1.2
  let p3 := enumLoop m.enums p2.1 p2.2
  (typedefLoop m.typedefs p3.1 p3.2).1

/-- The shape a safe-layer enum is emitted in by
`RustGenerator.generate_safe_enums`: either a `bitflags!` named bit set whose
constants reference the raw constants `sys::<name>` as bit values, or a plain
`#[repr(...)] enum` whose variants reference the raw constants of the
first-seen distinct values. -/
inductive SafeEnumForm : Type where
  | bitset (rawConsts : List String)
  | plain (rawConsts : List String)
deriving DecidableEq, Repr

/-- The first-seen-value filter of the plain-enum branch (`seen` set on
`val.value`), collecting the raw constant names that get a variant. -/
def dedupByValue : List EnumValue → List Int → List String
  | [], _ => []
  | v :: t, seen =>
    if v.value ∈ seen then dedupByValue t seen
    else v.name :: dedupByValue t (v.value :: seen)

/-- The per-enum branch decision of `RustGenerator.generate_safe_enums`: an
anonymous enum is skipped; otherwise the *arbitrated safe name*
(`self.name_map[enum.name]`) decides — a name containing `Flags` is emitted
through `bitflags!` with every raw constant as a bit value, any other name as a
plain enum over the first-seen distinct values.  (The ingestion-side
`is_bitflags` field is not consulted.) -/
def safeEnumForm (name_map : List (String × String)) (e : Enum) : Option SafeEnumForm :=
  if e.is_anonymous then Option.none
  else
    let name := (alookup e.name name_map).getD ""
    if pyIn "Flags" name then
      Option.some (SafeEnumForm.bitset (e.values.map (fun v => v.name)))
    else
      Option.some (SafeEnumForm.plain (dedupByValue e.values []))

/-- The shapes a `name_map` value can take: the stripped raw name, optionally
extended by one of the category suffixes appended on a collision. -/
def GoodVal (k v : String) : Prop :=
  v = strip_rfx k ∨ v = strip_rfx k ++ "Struct" ∨ v = strip_rfx k ++ "Flags" ∨
  v = strip_rfx k ++ "Enum" ∨ v = strip_rfx k ++ "Type"

/-- Every binding of the map has a `GoodVal` shape. -/
def ShapeOK (nm : List (String × String)) : Prop :=
  ∀ k v, alookup k nm = Option.some v → GoodVal k v

end RustGenerator

/-! ## Test fixtures: concrete AST nodes used by the concrete instances below -/

/-- An `IntegerLiteral` node. -/
def intLit (v : Int) : AstNode :=
  mkNode "IntegerLiteral" Option.none Option.none Option.none Option.none Option.none
    (Option.some v) Option.none

/-- A `BinaryOperator` node with two operand children. -/
def binOp (op : String) (l r : AstNode) : AstNode :=
  mkNode "BinaryOperator" Option.none Option.none Option.none Option.none
    (Option.some op) Option.none (Option.some [l, r])

/-- An `EnumConstantDecl` node without an initializer. -/
def enumConst (name : String) : AstNode :=
  mkNode "EnumConstantDecl" (Option.some name) Option.none Option.none Option.none
    Option.none Option.none Option.none

/-- An `EnumConstantDecl` node with an integer-literal initializer. -/
def enumConstInit (name : String) (v : Int) : AstNode :=
  mkNode "EnumConstantDecl" (Option.some name) Option.none Option.none Option.none
    Option.none Option.none (Option.some [intLit v])

/-- An `EnumDecl` node `enum RfxAccessBits { RFX_ACCESS_READ }` located in the
header `rafx.h`. -/
def bitsEnumNode : AstNode :=
  AstNode.node "EnumDecl" (Option.some "RfxAccessBits") (Option.some 31)
    (Option.some [("file", "rafx.h")]) Option.none Option.none Option.none Option.none
    false Option.none Option.none Option.none (Option.some [enumConst "RFX_ACCESS_READ"])

/-- A translation unit whose only declaration is `bitsEnumNode`. -/
def c3Root : AstNode :=
  mkNode "TranslationUnitDecl" Option.none (Option.some 30) Option.none Option.none
    Option.none Option.none (Option.some [bitsEnumNode])

/-- The ingested form of `enum RfxMemoryFlags { RFX_MEMORY_A = 1 }`. -/
def flagsEnumFixture : Enum :=
  ⟨"RfxMemoryFlags", "u32", [⟨"RFX_MEMORY_A", 1, Option.none⟩], false, true,
    Option.none, Option.none⟩

/-- A constant declaration carries no explicit initializer expression exactly when
it has no non-`FullComment` child — the `expr_nodes` test of `visit_enum`. -/
def noInitializer (c : AstNode) : Bool :=
  ((c.inner.getD []).filter (fun x => x.kind ≠ "FullComment")).isEmpty

/-- An `EnumDecl` fixture `enum RfxAbc { A, B, C }`. -/
def enumABC : AstNode :=
  mkNode "EnumDecl" (Option.some "RfxAbc") (Option.some 21) Option.none Option.none
    Option.none Option.none (Option.some [enumConst "A", enumConst "B", enumConst "C"])

/-- An `EnumDecl` fixture `enum RfxAbc { A, B = 5, C }`. -/
def enumAB5C : AstNode :=
  mkNode "EnumDecl" (Option.some "RfxAbc") (Option.some 22) Option.none Option.none
    Option.none Option.none
    (Option.some [enumConst "A", enumConstInit "B" 5, enumConst "C"])

/-! ## The claims -/

/-! ### Association-list lemmas -/

theorem alookup_ainsert_self {κ α : Type} [DecidableEq κ] (k : κ) (v : α)
    (l : List (κ × α)) : alookup k (ainsert k v l) = Option.some v := by
  induction l with
  | nil => simp [ainsert, alookup]
  | cons p t ih =>
    obtain ⟨k2, v2⟩ := p
    by_cases h : k2 = k
    · simp [ainsert, alookup, h]
    · simp [ainsert, alookup, h, ih]

theorem alookup_ainsert_ne {κ α : Type} [DecidableEq κ] {k k2 : κ} (v : α)
    (l : List (κ × α)) (h : k2 ≠ k) : alookup k2 (ainsert k v l) = alookup k2 l := by
  induction l with
  | nil => simp [ainsert, alookup, Ne.symm h]
  | cons p t ih =>
    obtain ⟨k3, v3⟩ := p
    by_cases h2 : k3 = k
    · subst h2
      simp [ainsert, alookup, Ne.symm h]
    · simp [ainsert, alookup, h2, ih]

theorem alookup_isSome_ainsert {κ α : Type} [DecidableEq κ] {k2 : κ} (k : κ) (v : α)
    (l : List (κ × α)) (h : (alookup k2 l).isSome) :
    (alookup k2 (ainsert k v l)).isSome := by
  by_cases hk : k2 = k
  · subst hk; simp [alookup_ainsert_self]
  · rwa [alookup_ainsert_ne v l hk]


/-- **C1.**  For every struct name in the API Module, once a complete (non-opaque)
`Struct` has been stored under that name, no later `add_struct` call — for the
same name or any other — ever replaces it: the lookup still returns the very
same struct afterwards, so completeness is monotone regardless of the order in
which forward declarations and definitions arrive. -/
theorem C1_add_struct_complete_monotone (m : ApiModule) (name : String) (s s2 : Struct)
    (hs : alookup name m.structs_map = Option.some s) (hc : s.isOpaque = false) :
    alookup name (m.add_struct s2).structs_map = Option.some s := by
  have hne : alookup s2.name m.structs_map = Option.none → name ≠ s2.name := by
    intro h0 he
    rw [he, h0] at hs
    cases hs
  unfold ApiModule.add_struct
  split
  · rename_i existing hlook
    split
    · rename_i hcond
      by_cases he : s2.name = name
      · exfalso
        rw [he, hs] at hlook
        injection hlook with h2
        rw [← h2, hc] at hcond
        simp at hcond
      · show alookup name (ainsert s2.name s2 m.structs_map) = Option.some s
        rw [alookup_ainsert_ne s2 m.structs_map (Ne.symm he)]
        exact hs
    · exact hs
  · rename_i hlook
    show alookup name (ainsert s2.name s2 m.structs_map) = Option.some s
    rw [alookup_ainsert_ne s2 m.structs_map (hne hlook)]
    exact hs

/-- Witness for C1: a complete `RfxDevice` struct survives a later opaque
re-declaration of the same name. -/
theorem C1_add_struct_complete_monotone_witness :
    alookup "RfxDevice"
      (ApiModule.add_struct
        ⟨[], [], [("RfxDevice", ⟨"RfxDevice", [], false, false, Option.none⟩)], [], []⟩
        ⟨"RfxDevice", [], false, true, Option.none⟩).structs_map
      = Option.some ⟨"RfxDevice", [], false, false, Option.none⟩ :=
  C1_add_struct_complete_monotone _ "RfxDevice" _ _ (by decide) rfl

/-- **C2, counterexample.**  The claim says a top-level node with no location at
all is considered by ingestion.  It is not: `is_valid_loc` returns `False` when
`node.get("loc")` is falsy, so a `FunctionDecl` without a `loc` key is skipped by
`parse` — here a whole translation unit whose only declaration is such a
function ingests to a module with no functions at all. -/
theorem C2_counterexample :
    ClangAstParser.is_valid_loc "rafx.h"
      (mkNode "FunctionDecl" (Option.some "rfxFoo") Option.none Option.none
        (Option.some "void (void)") Option.none Option.none Option.none) = false ∧
    (ClangAstParser.parse "rafx.h"
      (mkNode "TranslationUnitDecl" Option.none (Option.some 1) Option.none Option.none
        Option.none Option.none
        (Option.some [mkNode "FunctionDecl" (Option.some "rfxFoo") Option.none Option.none
          (Option.some "void (void)") Option.none Option.none Option.none]))).functions
      = [] := by
  constructor
  · rfl
  · rfl

/-- **C2, amended.**  A top-level node is considered by ingestion exactly when it
has a location object that is present and non-empty and either carries no source
file entry (inherited from the preceding node, assumed in-header) or carries one
that — case-insensitively and with path separators normalized — ends with the
header's filename.  Nodes with no location object at all (and nodes with an
empty one) are excluded, as are nodes located in a different file. -/
theorem C2_amended_location_filter (hdr : String) (n : AstNode) :
    ClangAstParser.is_valid_loc hdr n = true ↔
      ∃ loc, n.loc = Option.some loc ∧ loc ≠ [] ∧
        (alookup "file" loc = Option.none ∨
          ∃ f, alookup "file" loc = Option.some f ∧
            pyEndsWith (pyLower (pyReplace f "\\" "/")) hdr = true) := by
  unfold ClangAstParser.is_valid_loc
  rcases hloc : n.loc with _ | loc
  · simp
  · rcases loc with _ | ⟨p, rest⟩
    · simp
    · rcases hf : alookup "file" (p :: rest) with _ | f
      · simp [hf]
      · simp [hf]

/-- **C4.**  Ingestion is deterministic: for a fixed header path and a fixed input
tree, running the ingestion pass again produces an API Module equal to the first
run's — the same enums, structs, functions and typedefs in the same order (each
run starts from a fresh empty module, empty processed-id set and freshly built
node index, with no state shared between runs). -/
theorem C4_parse_deterministic (header_file : String) (data : AstNode) :
    ClangAstParser.parse header_file data = ClangAstParser.parse header_file data ∧
    (ClangAstParser.parse header_file data).enums = (ClangAstParser.parse header_file data).enums ∧
    (ClangAstParser.parse header_file data).structs_map = (ClangAstParser.parse header_file data).structs_map ∧
    (ClangAstParser.parse header_file data).functions = (ClangAstParser.parse header_file data).functions ∧
    (ClangAstParser.parse header_file data).typedefs = (ClangAstParser.parse header_file data).typedefs :=
  ⟨rfl, rfl, rfl, rfl, rfl⟩

/-- `applyOp` yields nothing for an opcode outside the supported set. -/
theorem applyOp_unsupported (op : String) (l r : Int)
    (h : op ∉ (["<<", ">>", "|", "&", "+", "-", "*", "/"] : List String)) :
    ClangAstParser.applyOp op l r = Option.none := by
  simp only [List.mem_cons, List.mem_singleton, not_or] at h
  obtain ⟨h1, h2, h3, h4, h5, h6, h7, h8⟩ := h
  simp [ClangAstParser.applyOp, h1, h2, h3, h4, h5, h6, h7, h8]

/-- **C5.**  Constant-expression evaluation computes `1 << 4` as 16 and `3 | 4`
as 7, and for a binary expression whose operator is outside the supported set
(shift-left, shift-right, bitwise-or, bitwise-and, add, subtract, multiply,
integer-truncating divide) — modulo, for instance — it returns the evaluated
value of the left operand (the evaluation is total: no exception escapes). -/
theorem C5_constant_folding :
    ClangAstParser.evaluate_expr (binOp "<<" (intLit 1) (intLit 4)) = 16 ∧
    ClangAstParser.evaluate_expr (binOp "|" (intLit 3) (intLit 4)) = 7 ∧
    (∀ (op : String) (children : List AstNode) (l : Int) (second : Option Int),
      op ∉ (["<<", ">>", "|", "&", "+", "-", "*", "/"] : List String) →
      ClangAstParser.evalTwo children = Option.some (l, second) →
      ClangAstParser.evaluate_expr
        (mkNode "BinaryOperator" Option.none Option.none Option.none Option.none
          (Option.some op) Option.none (Option.some children)) = l) := by
  refine ⟨by decide, by decide, ?_⟩
  intro op children l second hop hev
  simp only [mkNode, ClangAstParser.evaluate_expr]
  rw [hev]
  rcases second with _ | r
  · simp
  · simp [applyOp_unsupported op l r hop]

/-- Witness for C5: the modulo operator, which is unsupported, yields the left
operand `3` on `3 % 4`. -/
theorem C5_constant_folding_witness :
    ClangAstParser.evaluate_expr
      (mkNode "BinaryOperator" Option.none Option.none Option.none Option.none
        (Option.some "%") Option.none (Option.some [intLit 3, intLit 4])) = 3 :=
  C5_constant_folding.2.2 "%" [intLit 3, intLit 4] 3 (Option.some 4) (by decide) (by decide)

/-- **C7.**  Parsing the type string `int[4]` yields `array_size = 4` and
`array_size_2d = None`; parsing `int[2][4]` yields `array_size = 4` and
`array_size_2d = 2` — the outer dimension is stored in the second slot. -/
theorem C7_array_parsing :
    (ClangAstParser.parse_type "int[4]").array_size = Option.some 4 ∧
    (ClangAstParser.parse_type "int[4]").array_size_2d = Option.none ∧
    (ClangAstParser.parse_type "int[2][4]").array_size = Option.some 4 ∧
    (ClangAstParser.parse_type "int[2][4]").array_size_2d = Option.some 2 := by
  refine ⟨by decide, by decide, by decide, by decide⟩

/-- **C10.**  A type string carrying three or more `[N]` suffixes gets no array
extent recorded at all — both `array_size` and `array_size_2d` stay `None` — and
the suffixes are still stripped from the base name, so `int[2][3][4]` degrades
to the plain scalar `i32`. -/
theorem C10_multi_dim_arrays (qt : String) (h3 : 3 ≤ (findDims qt.data).length) :
    (ClangAstParser.parse_type qt).array_size = Option.none ∧
    (ClangAstParser.parse_type qt).array_size_2d = Option.none ∧
    ClangAstParser.parse_type "int[2][3][4]" =
      ⟨"i32", false, false, Option.none, Option.none⟩ := by
  refine ⟨?_, ?_, by decide⟩ <;>
  · simp only [ClangAstParser.parse_type]
    rcases hd : findDims qt.data with _ | ⟨a, _ | ⟨b, _ | ⟨c, t⟩⟩⟩ <;>
      rw [hd] at h3 <;> simp_all

/-- Unfolding `enumValueLoop` at an `EnumConstantDecl` head. -/
theorem enumValueLoop_cons_const (c : AstNode) (cs : List AstNode) (start : Int)
    (hk : c.kind = "EnumConstantDecl") :
    ClangAstParser.enumValueLoop (c :: cs) start Option.none =
      ⟨c.name.getD "",
        (if noInitializer c then start else ClangAstParser.evaluate_expr c),
        Option.none⟩ ::
      ClangAstParser.enumValueLoop cs
        ((if noInitializer c then start else ClangAstParser.evaluate_expr c) + 1)
        Option.none := by
  simp only [ClangAstParser.enumValueLoop]
  rw [hk]
  rw [if_neg (by decide : ¬("EnumConstantDecl" : String) = "FullComment")]
  rw [if_pos rfl]
  rfl

/-- An initializer-free first constant takes the running start value. -/
theorem enumValueLoop_head (c : AstNode) (cs : List AstNode) (start : Int)
    (hk : c.kind = "EnumConstantDecl") (hno : noInitializer c = true) :
    ((ClangAstParser.enumValueLoop (c :: cs) start Option.none).getD 0
      ⟨"", 0, Option.none⟩).value = start := by
  rw [enumValueLoop_cons_const c cs start hk, List.getD_cons_zero]
  simp [hno]

/-- An initializer-free later constant takes one more than its predecessor. -/
theorem enumValueLoop_step (children : List AstNode)
    (h : ∀ c ∈ children, c.kind = "EnumConstantDecl") :
    ∀ (start : Int) (i : Nat), i + 1 < children.length →
      noInitializer (children.getD (i + 1) (enumConst "")) = true →
      ((ClangAstParser.enumValueLoop children start Option.none).getD (i + 1)
        ⟨"", 0, Option.none⟩).value =
      ((ClangAstParser.enumValueLoop children start Option.none).getD i
        ⟨"", 0, Option.none⟩).value + 1 := by
  induction children with
  | nil => intro start i hi; simp at hi
  | cons c cs ih =>
    intro start i hi hno
    have hk : c.kind = "EnumConstantDecl" := h c (by simp)
    have hcs : ∀ x ∈ cs, x.kind = "EnumConstantDecl" := fun x hx => h x (by simp [hx])
    rw [List.getD_cons_succ] at hno
    rw [enumValueLoop_cons_const c cs start hk]
    rw [List.getD_cons_succ]
    cases i with
    | zero =>
      rw [List.getD_cons_zero]
      cases cs with
      | nil => simp at hi
      | cons c2 cs2 =>
        have hk2 : c2.kind = "EnumConstantDecl" := hcs c2 (by simp)
        exact enumValueLoop_head c2 cs2 _ hk2 (by simpa using hno)
    | succ j =>
      rw [List.getD_cons_succ]
      have hlen : j + 1 < cs.length := by simpa using hi
      exact ih hcs _ j hlen hno

/-- **C6.**  In an enum, a constant without an explicit initializer expression
receives one more than the previous constant's value, and an initializer-free
first constant receives 0 (the running value starts at 0); consequently an enum
with no initializers gets values `[0, 1, 2]` and `{A, B = 5, C}` gets
`[0, 5, 6]`, as checked through `visit_enum` on concrete declarations. -/
theorem C6_enum_default_sequencing (children : List AstNode)
    (h : ∀ c ∈ children, c.kind = "EnumConstantDecl") :
    (∀ c cs, children = c :: cs → noInitializer c = true →
      ((ClangAstParser.enumValueLoop children 0 Option.none).getD 0
        ⟨"", 0, Option.none⟩).value = 0) ∧
    (∀ i, i + 1 < children.length →
      noInitializer (children.getD (i + 1) (enumConst "")) = true →
      ((ClangAstParser.enumValueLoop children 0 Option.none).getD (i + 1)
        ⟨"", 0, Option.none⟩).value =
      ((ClangAstParser.enumValueLoop children 0 Option.none).getD i
        ⟨"", 0, Option.none⟩).value + 1) ∧
    (ClangAstParser.visit_enum ⟨{}, [], []⟩ enumABC Option.none Option.none
        Option.none).module.enums.map (fun e => e.values.map (fun v => v.value))
      = [[0, 1, 2]] ∧
    (ClangAstParser.visit_enum ⟨{}, [], []⟩ enumAB5C Option.none Option.none
        Option.none).module.enums.map (fun e => e.values.map (fun v => v.value))
      = [[0, 5, 6]] := by
  refine ⟨?_, ?_, by decide, by decide⟩
  · intro c cs hcc hno
    subst hcc
    exact enumValueLoop_head c cs 0 (h c (by simp)) hno
  · intro i hi hno
    exact enumValueLoop_step children h 0 i hi hno

/-- Witness for C6: in `{A, B = 5, C}` the initializer-free third constant gets one
more than the second. -/
theorem C6_enum_default_sequencing_witness :
    ((ClangAstParser.enumValueLoop [enumConst "A", enumConstInit "B" 5, enumConst "C"]
        0 Option.none).getD (1 + 1) ⟨"", 0, Option.none⟩).value =
    ((ClangAstParser.enumValueLoop [enumConst "A", enumConstInit "B" 5, enumConst "C"]
        0 Option.none).getD 1 ⟨"", 0, Option.none⟩).value + 1 :=
  (C6_enum_default_sequencing [enumConst "A", enumConstInit "B" 5, enumConst "C"]
    (by decide)).2.1 1 (by decide) (by decide)

/-- Witness for C10: `int[2][3][4]` has three suffixes and records no extent. -/
theorem C10_multi_dim_arrays_witness :
    3 ≤ (findDims ("int[2][3][4]" : String).data).length ∧
    (ClangAstParser.parse_type "int[2][3][4]").array_size = Option.none :=
  ⟨by decide, (C10_multi_dim_arrays "int[2][3][4]" (by decide)).1⟩

/-! ### Invariants of the name-arbitration loops -/

namespace RustGenerator

theorem handleLoop_lookup_not_mem (t : List String) (nm used : List (String × String))
    (h : String) (hh : h ∉ t) :
    alookup h (handleLoop t nm used).1 = alookup h nm := by
  induction t generalizing nm used with
  | nil => rfl
  | cons x t2 ih =>
    have hx : h ≠ x := fun he => hh (he ▸ List.mem_cons_self x t2)
    have ht2 : h ∉ t2 := fun hm => hh (List.mem_cons_of_mem x hm)
    simp only [handleLoop]
    rw [ih _ _ ht2]
    exact alookup_ainsert_ne _ _ hx

theorem handleLoop_lookup_mem (t : List String) (nm used : List (String × String))
    (h : String) (hh : h ∈ t) :
    alookup h (handleLoop t nm used).1 = Option.some (strip_rfx h) := by
  induction t generalizing nm used with
  | nil => cases hh
  | cons x t2 ih =>
    simp only [handleLoop]
    by_cases hm : h ∈ t2
    · exact ih _ _ hm
    · have hx : h = x := by
        rcases List.mem_cons.mp hh with h1 | h1
        · exact h1
        · exact absurd h1 hm
      subst hx
      rw [handleLoop_lookup_not_mem t2 _ _ h hm]
      exact alookup_ainsert_self h _ nm

theorem handleLoop_used_mono (t : List String) (nm used : List (String × String))
    (k : String) (hk : (alookup k used).isSome) :
    (alookup k (handleLoop t nm used).2).isSome := by
  induction t generalizing nm used with
  | nil => exact hk
  | cons x t2 ih =>
    simp only [handleLoop]
    exact ih _ _ (alookup_isSome_ainsert _ _ _ hk)

theorem handleLoop_used_mem (t : List String) (nm used : List (String × String))
    (x : String) (hx : x ∈ t) :
    (alookup (strip_rfx x) (handleLoop t nm used).2).isSome := by
  induction t generalizing nm used with
  | nil => cases hx
  | cons y t2 ih =>
    simp only [handleLoop]
    by_cases hm : x ∈ t2
    · exact ih _ _ hm
    · have hxy : x = y := by
        rcases List.mem_cons.mp hx with h1 | h1
        · exact h1
        · exact absurd h1 hm
      subst hxy
      apply handleLoop_used_mono
      rw [alookup_ainsert_self]
      rfl

theorem structLoop_preserve (t : List String) (nm used : List (String × String))
    (k v : String) (hk : alookup k nm = Option.some v) :
    alookup k (structLoop t nm used).1 = Option.some v := by
  induction t generalizing nm used with
  | nil => exact hk
  | cons s t2 ih =>
    simp only [structLoop]
    rcases hs : alookup s nm with _ | w
    · have hne : k ≠ s := by
        intro he
        rw [he, hs] at hk
        cases hk
      apply ih
      rw [alookup_ainsert_ne _ _ hne]
      exact hk
    · exact ih _ _ hk

theorem structLoop_lookup_not_mem (t : List String) (nm used : List (String × String))
    (k : String) (hk : k ∉ t) :
    alookup k (structLoop t nm used).1 = alookup k nm := by
  induction t generalizing nm used with
  | nil => rfl
  | cons s t2 ih =>
    have hne : k ≠ s := fun he => hk (he ▸ List.mem_cons_self s t2)
    have ht2 : k ∉ t2 := fun hm => hk (List.mem_cons_of_mem s hm)
    simp only [structLoop]
    rcases hs : alookup s nm with _ | w
    · rw [ih _ _ ht2]
      exact alookup_ainsert_ne _ _ hne
    · exact ih _ _ ht2

theorem structLoop_main (t : List String) (nm used : List (String × String))
    (s : String) (ht : s ∈ t) (hnd : t.Nodup) (hnm : alookup s nm = Option.none)
    (hu : (alookup (strip_rfx s) used).isSome) :
    alookup s (structLoop t nm used).1 = Option.some (strip_rfx s ++ "Struct") := by
  induction t generalizing nm used with
  | nil => cases ht
  | cons x t2 ih =>
    have hnd2 : t2.Nodup := (List.nodup_cons.mp hnd).2
    have hxnot : x ∉ t2 := (List.nodup_cons.mp hnd).1
    simp only [structLoop]
    by_cases he : s = x
    · subst he
      rw [hnm]
      rw [if_pos hu]
      rw [structLoop_lookup_not_mem t2 _ _ s hxnot]
      exact alookup_ainsert_self s _ nm
    · have hs2 : s ∈ t2 := by
        rcases List.mem_cons.mp ht with h1 | h1
        · exact absurd h1 he
        · exact h1
      rcases hx : alookup x nm with _ | w
      · apply ih _ _ hs2 hnd2
        · rw [alookup_ainsert_ne _ _ he]
          exact hnm
        · exact alookup_isSome_ainsert _ _ _ hu
      · exact ih _ _ hs2 hnd2 hnm hu

theorem enumLoop_preserve (es : List Enum) (nm used : List (String × String))
    (k v : String) (hk : alookup k nm = Option.some v) :
    alookup k (enumLoop es nm used).1 = Option.some v := by
  induction es generalizing nm used with
  | nil => exact hk
  | cons e t2 ih =>
    simp only [enumLoop]
    split
    · exact ih _ _ hk
    · rcases hs : alookup e.name nm with _ | w
      · have hne : k ≠ e.name := by
          intro he
          rw [he, hs] at hk
          cases hk
        apply ih
        rw [alookup_ainsert_ne _ _ hne]
        exact hk
      · exact ih _ _ hk

theorem enumLoop_preserve_isSome (es : List Enum) (nm used : List (String × String))
    (k : String) (hk : (alookup k nm).isSome) :
    (alookup k (enumLoop es nm used).1).isSome := by
  obtain ⟨v, hv⟩ := Option.isSome_iff_exists.mp hk
  rw [enumLoop_preserve es nm used k v hv]
  rfl

theorem enumLoop_ensures (es : List Enum) (nm used : List (String × String))
    (e : Enum) (he : e ∈ es) (ha : e.is_anonymous = false) (hn : e.name ≠ "") :
    (alookup e.name (enumLoop es nm used).1).isSome := by
  induction es generalizing nm used with
  | nil => cases he
  | cons e2 t2 ih =>
    by_cases hm : e ∈ t2
    · simp only [enumLoop]
      split
      · exact ih _ _ hm
      · split
        · exact ih _ _ hm
        · exact ih _ _ hm
    · have he2 : e = e2 := by
        rcases List.mem_cons.mp he with h1 | h1
        · exact h1
        · exact absurd h1 hm
      subst he2
      simp only [enumLoop]
      rw [if_neg (by simp [ha, hn])]
      rcases hs : alookup e.name nm with _ | w
      · apply enumLoop_preserve_isSome
        rw [alookup_ainsert_self]
        rfl
      · apply enumLoop_preserve_isSome
        rw [hs]
        rfl

theorem typedefLoop_preserve (ts : List Typedef) (nm used : List (String × String))
    (k v : String) (hk : alookup k nm = Option.some v) :
    alookup k (typedefLoop ts nm used).1 = Option.some v := by
  induction ts generalizing nm used with
  | nil => exact hk
  | cons td t2 ih =>
    simp only [typedefLoop]
    rcases hs : alookup td.name nm with _ | w
    · have hne : k ≠ td.name := by
        intro he
        rw [he, hs] at hk
        cases hk
      apply ih
      rw [alookup_ainsert_ne _ _ hne]
      exact hk
    · exact ih _ _ hk

theorem typedefLoop_preserve_isSome (ts : List Typedef) (nm used : List (String × String))
    (k : String) (hk : (alookup k nm).isSome) :
    (alookup k (typedefLoop ts nm used).1).isSome := by
  obtain ⟨v, hv⟩ := Option.isSome_iff_exists.mp hk
  rw [typedefLoop_preserve ts nm used k v hv]
  rfl

theorem mem_insertSorted (x y : String) (l : List String) :
    x ∈ insertSorted y l ↔ x = y ∨ x ∈ l := by
  induction l with
  | nil => simp [insertSorted]
  | cons z t ih =>
    simp only [insertSorted]
    by_cases hc : pyStrLt z y = true
    · rw [if_pos hc]
      simp only [List.mem_cons, ih]
      tauto
    · rw [if_neg hc]
      simp only [List.mem_cons]

theorem mem_sortStrings (x : String) (l : List String) :
    x ∈ sortStrings l ↔ x ∈ l := by
  induction l with
  | nil => simp [sortStrings]
  | cons a t ih =>
    show x ∈ insertSorted a (sortStrings t) ↔ _
    rw [mem_insertSorted, ih]
    simp

theorem nodup_insertSorted (y : String) (l : List String) (hy : y ∉ l) (hl : l.Nodup) :
    (insertSorted y l).Nodup := by
  induction l with
  | nil => simp [insertSorted]
  | cons z t ih =>
    rcases List.nodup_cons.mp hl with ⟨hz, ht⟩
    have hyz : y ≠ z := fun he => hy (he ▸ List.mem_cons_self z t)
    have hyt : y ∉ t := fun hm => hy (List.mem_cons_of_mem z hm)
    simp only [insertSorted]
    by_cases hc : pyStrLt z y = true
    · rw [if_pos hc]
      refine List.nodup_cons.mpr ⟨?_, ih hyt ht⟩
      intro hmem
      rcases (mem_insertSorted z y t).mp hmem with h1 | h1
      · exact hyz h1.symm
      · exact hz h1
    · rw [if_neg hc]
      exact List.nodup_cons.mpr ⟨hy, hl⟩

theorem nodup_sortStrings (l : List String) (h : l.Nodup) : (sortStrings l).Nodup := by
  induction l with
  | nil => simp [sortStrings]
  | cons a t ih =>
    rcases List.nodup_cons.mp h with ⟨ha, ht⟩
    exact nodup_insertSorted a (sortStrings t)
      (fun hm => ha ((mem_sortStrings a t).mp hm)) (ih ht)

/-- Every handle keeps its bare stripped name through the whole of `preprocess`:
the handle pass assigns it and the later passes skip names already mapped. -/
theorem preprocess_handle (m : ApiModule) (h : String) (hh : h ∈ handleTypesOf m) :
    alookup h (preprocessNameMap m) = Option.some (strip_rfx h) := by
  simp only [preprocessNameMap]
  apply typedefLoop_preserve
  apply enumLoop_preserve
  apply structLoop_preserve
  exact handleLoop_lookup_mem _ _ _ h ((mem_sortStrings h _).mpr hh)

/-- A non-handle struct whose stripped name collides with a handle's stripped name
receives the `Struct` suffix. -/
theorem preprocess_struct_collision (m : ApiModule) (h s : String)
    (hnd : (structsKeys m).Nodup) (hh : h ∈ handleTypesOf m) (hs : s ∈ structsKeys m)
    (hsh : s ∉ handleTypesOf m) (heq : strip_rfx s = strip_rfx h) :
    alookup s (preprocessNameMap m) = Option.some (strip_rfx s ++ "Struct") := by
  simp only [preprocessNameMap]
  apply typedefLoop_preserve
  apply enumLoop_preserve
  apply structLoop_main
  · exact (mem_sortStrings s _).mpr hs
  · exact nodup_sortStrings _ hnd
  · rw [handleLoop_lookup_not_mem _ _ _ s (fun hm => hsh ((mem_sortStrings s _).mp hm))]
    rfl
  · rw [heq]
    exact handleLoop_used_mem _ _ _ h ((mem_sortStrings h _).mpr hh)

end RustGenerator

/-! ### Shape of arbitrated names, and substring preservation -/

namespace RustGenerator

theorem shapeOK_nil : ShapeOK [] := by
  intro k v hkv
  cases hkv

theorem shapeOK_ainsert {nm : List (String × String)} {k v : String}
    (hs : ShapeOK nm) (hg : GoodVal k v) : ShapeOK (ainsert k v nm) := by
  intro k2 v2 h2
  by_cases he : k2 = k
  · subst he
    rw [alookup_ainsert_self] at h2
    injection h2 with h3
    subst h3
    exact hg
  · rw [alookup_ainsert_ne _ _ he] at h2
    exact hs _ _ h2

theorem handleLoop_shape (t : List String) (nm used : List (String × String))
    (hs : ShapeOK nm) : ShapeOK (handleLoop t nm used).1 := by
  induction t generalizing nm used with
  | nil => exact hs
  | cons x t2 ih =>
    simp only [handleLoop]
    exact ih _ _ (shapeOK_ainsert hs (Or.inl rfl))

theorem structLoop_shape (t : List String) (nm used : List (String × String))
    (hs : ShapeOK nm) : ShapeOK (structLoop t nm used).1 := by
  induction t generalizing nm used with
  | nil => exact hs
  | cons x t2 ih =>
    simp only [structLoop]
    split
    · exact ih _ _ hs
    · apply ih
      apply shapeOK_ainsert hs
      by_cases hc : (alookup (strip_rfx x) used).isSome = true
      · rw [if_pos hc]
        exact Or.inr (Or.inl rfl)
      · rw [if_neg hc]
        exact Or.inl rfl

theorem enumLoop_shape (es : List Enum) (nm used : List (String × String))
    (hs : ShapeOK nm) : ShapeOK (enumLoop es nm used).1 := by
  induction es generalizing nm used with
  | nil => exact hs
  | cons e t2 ih =>
    simp only [enumLoop]
    split
    · exact ih _ _ hs
    · split
      · exact ih _ _ hs
      · apply ih
        apply shapeOK_ainsert hs
        by_cases hc : (alookup (strip_rfx e.name) used).isSome = true
        · rw [if_pos hc]
          by_cases hf : pyIn "Flags" e.name = true
          · rw [if_pos hf]
            by_cases hend : pyEndsWith (strip_rfx e.name) "Flags" = true
            · rw [if_pos hend]
              exact Or.inl rfl
            · rw [if_neg hend]
              exact Or.inr (Or.inr (Or.inl rfl))
          · rw [if_neg hf]
            by_cases hend : pyEndsWith (strip_rfx e.name) "Enum" = true
            · rw [if_pos hend]
              exact Or.inl rfl
            · rw [if_neg hend]
              exact Or.inr (Or.inr (Or.inr (Or.inl rfl)))
        · rw [if_neg hc]
          exact Or.inl rfl

theorem typedefLoop_shape (ts : List Typedef) (nm used : List (String × String))
    (hs : ShapeOK nm) : ShapeOK (typedefLoop ts nm used).1 := by
  induction ts generalizing nm used with
  | nil => exact hs
  | cons td t2 ih =>
    simp only [typedefLoop]
    split
    · exact ih _ _ hs
    · apply ih
      apply shapeOK_ainsert hs
      by_cases hc : (alookup (strip_rfx td.name) used).isSome = true
      · rw [if_pos hc]
        exact Or.inr (Or.inr (Or.inr (Or.inr rfl)))
      · rw [if_neg hc]
        exact Or.inl rfl

/-- Every binding the whole arbitration produces is the stripped key, possibly
with one category suffix. -/
theorem preprocess_shape (m : ApiModule) : ShapeOK (preprocessNameMap m) := by
  simp only [preprocessNameMap]
  exact typedefLoop_shape _ _ _ (enumLoop_shape _ _ _ (structLoop_shape _ _ _
    (handleLoop_shape _ _ _ shapeOK_nil)))

/-- Every named non-anonymous enum of the module ends up with an arbitrated
name. -/
theorem preprocess_enum_present (m : ApiModule) (e : Enum) (he : e ∈ m.enums)
    (ha : e.is_anonymous = false) (hn : e.name ≠ "") :
    (alookup e.name (preprocessNameMap m)).isSome := by
  simp only [preprocessNameMap]
  apply typedefLoop_preserve_isSome
  exact enumLoop_ensures _ _ _ e he ha hn

theorem isInfixOfL_iff (n l : List Char) : isInfixOfL n l = true ↔ n <:+: l := by
  induction l with
  | nil =>
    simp [isInfixOfL, List.isEmpty_iff]
  | cons c cs ih =>
    simp [isInfixOfL, ih, List.infix_cons_iff]

theorem pyIn_iff_isInfix (nd hay : String) : pyIn nd hay = true ↔ nd.data <:+: hay.data :=
  isInfixOfL_iff nd.data hay.data

theorem pyIn_append_left (nd a b : String) (h : pyIn nd a = true) :
    pyIn nd (a ++ b) = true := by
  rw [pyIn_iff_isInfix] at h ⊢
  obtain ⟨s, t, hst⟩ := h
  refine ⟨s, t ++ b.data, ?_⟩
  rw [String.data_append, ← hst]
  simp

theorem flags_infix_dropUnderscore (r : List Char)
    (h : ("Flags" : String).data <:+: r) :
    ("Flags" : String).data <:+: dropUnderscoreL r := by
  rcases r with _ | ⟨c, r2⟩
  · exact h
  · simp only [dropUnderscoreL]
    by_cases hc : c = '_'
    · rw [if_pos hc]
      subst hc
      obtain ⟨s, t, hst⟩ := h
      rcases s with _ | ⟨a, s2⟩
      · exfalso
        simp only [List.nil_append, List.cons_append] at hst
        injection hst with h1 _
        exact absurd h1 (by decide)
      · simp only [List.cons_append] at hst
        injection hst with _ h2
        exact ⟨s2, t, h2⟩
    · rw [if_neg hc]
      exact h

theorem stripRfxL_flags (l : List Char) (h : ("Flags" : String).data <:+: l) :
    ("Flags" : String).data <:+: stripRfxL l := by
  rcases l with _ | ⟨c1, _ | ⟨c2, _ | ⟨c3, rest⟩⟩⟩
  · exact h
  · exact h
  · exact h
  · simp only [stripRfxL]
    by_cases hp : (c1 = 'r' ∧ c2 = 'f' ∧ c3 = 'x') ∨ (c1 = 'R' ∧ c2 = 'F' ∧ c3 = 'X') ∨
        (c1 = 'R' ∧ c2 = 'f' ∧ c3 = 'x')
    · rw [if_pos hp]
      apply flags_infix_dropUnderscore
      obtain ⟨s, t, hst⟩ := h
      rcases s with _ | ⟨a, _ | ⟨b, _ | ⟨d, s3⟩⟩⟩
      · exfalso
        simp only [List.nil_append, List.cons_append] at hst
        injection hst with h1 _
        rcases hp with ⟨e1, _, _⟩ | ⟨e1, _, _⟩ | ⟨e1, _, _⟩ <;> rw [e1] at h1 <;>
          exact absurd h1 (by decide)
      · exfalso
        simp only [List.cons_append] at hst
        injection hst with _ hst2
        injection hst2 with h2 hst3
        injection hst3 with h3 _
        rcases hp with ⟨_, e2, _⟩ | ⟨_, e2, e3⟩ | ⟨_, e2, _⟩
        · rw [e2] at h2
          exact absurd h2 (by decide)
        · rw [e3] at h3
          exact absurd h3 (by decide)
        · rw [e2] at h2
          exact absurd h2 (by decide)
      · exfalso
        simp only [List.cons_append] at hst
        injection hst with _ hst2
        injection hst2 with _ hst3
        injection hst3 with h3 _
        rcases hp with ⟨_, _, e3⟩ | ⟨_, _, e3⟩ | ⟨_, _, e3⟩ <;> rw [e3] at h3 <;>
          exact absurd h3 (by decide)
      · simp only [List.cons_append] at hst
        injection hst with _ hst2
        injection hst2 with _ hst3
        injection hst3 with _ h4
        exact ⟨s3, t, h4⟩
    · rw [if_neg hp]
      exact h

theorem strip_rfx_flags (n : String) (h : pyIn "Flags" n = true) :
    pyIn "Flags" (strip_rfx n) = true := by
  rw [pyIn_iff_isInfix] at h ⊢
  exact stripRfxL_flags n.data h

theorem goodVal_flags (k v : String) (hg : GoodVal k v)
    (hk : pyIn "Flags" k = true) : pyIn "Flags" v = true := by
  have hs := strip_rfx_flags k hk
  rcases hg with h1 | h1 | h1 | h1 | h1 <;> rw [h1]
  · exact hs
  · exact pyIn_append_left _ _ _ hs
  · exact pyIn_append_left _ _ _ hs
  · exact pyIn_append_left _ _ _ hs
  · exact pyIn_append_left _ _ _ hs

end RustGenerator

/-- **C3, counterexample.**  `RfxAccessBits` is classified as a bit-flag set
during ingestion (its name contains `Bits`), yet the safe layer emits it as a
plain enumeration: `generate_safe_enums` branches on `Flags` appearing in the
arbitrated safe name (`AccessBits`), never consulting the `is_bitflags`
classification. -/
theorem C3_counterexample :
    (ClangAstParser.parse "rafx.h" c3Root).enums.map (fun e => e.is_bitflags)
      = [true] ∧
    (ClangAstParser.parse "rafx.h" c3Root).enums.map
      (fun e => RustGenerator.safeEnumForm
        (RustGenerator.preprocessNameMap (ClangAstParser.parse "rafx.h" c3Root)) e)
      = [Option.some (RustGenerator.SafeEnumForm.plain ["RFX_ACCESS_READ"])] :=
  ⟨by decide, by decide⟩

/-- **C3, amended.**  A named enum whose raw name contains `Flags` is emitted in
the safe layer as a named-bit-set abstraction whose constants reuse the raw
constants as bit values; but the emitter's branch tests the arbitrated safe
name, not the ingestion-side `is_bitflags` flag, so an enum classified as a
bit-flag set solely via `Bits` (whose safe name therefore lacks `Flags`) is
emitted as a plain enumeration instead. -/
theorem C3_safe_enum_emission (m : ApiModule) (e : Enum) (he : e ∈ m.enums)
    (ha : e.is_anonymous = false) (hn : e.name ≠ "") :
    (pyIn "Flags" e.name = true →
      RustGenerator.safeEnumForm (RustGenerator.preprocessNameMap m) e =
        Option.some (RustGenerator.SafeEnumForm.bitset
          (e.values.map (fun v => v.name)))) ∧
    (pyIn "Flags" ((alookup e.name (RustGenerator.preprocessNameMap m)).getD "") = false →
      RustGenerator.safeEnumForm (RustGenerator.preprocessNameMap m) e =
        Option.some (RustGenerator.SafeEnumForm.plain
          (RustGenerator.dedupByValue e.values []))) := by
  constructor
  · intro hflags
    obtain ⟨v, hv⟩ := Option.isSome_iff_exists.mp
      (RustGenerator.preprocess_enum_present m e he ha hn)
    have hvf : pyIn "Flags" v = true :=
      RustGenerator.goodVal_flags _ _ (RustGenerator.preprocess_shape m e.name v hv) hflags
    simp only [RustGenerator.safeEnumForm]
    rw [if_neg (show ¬e.is_anonymous = true by rw [ha]; exact Bool.false_ne_true)]
    rw [hv]
    rw [if_pos (show pyIn "Flags" ((Option.some v).getD "") = true from hvf)]
  · intro hnot
    simp only [RustGenerator.safeEnumForm]
    rw [if_neg (show ¬e.is_anonymous = true by rw [ha]; exact Bool.false_ne_true)]
    rw [if_neg (by rw [hnot]; exact Bool.false_ne_true)]

/-- Witness for the amended C3: `RfxMemoryFlags` is emitted through the bit-set
branch, its constant reusing the raw `RFX_MEMORY_A`. -/
theorem C3_safe_enum_emission_witness :
    pyIn "Flags" flagsEnumFixture.name = true ∧
    RustGenerator.safeEnumForm
      (RustGenerator.preprocessNameMap ⟨[flagsEnumFixture], [], [], [], []⟩)
      flagsEnumFixture =
      Option.some (RustGenerator.SafeEnumForm.bitset
        (flagsEnumFixture.values.map (fun v => v.name))) :=
  ⟨by decide,
   (C3_safe_enum_emission ⟨[flagsEnumFixture], [], [], [], []⟩ flagsEnumFixture
     (by decide) rfl (by decide)).1 (by decide)⟩

/-- **C8.**  When a handle type and a (non-handle) struct normalize to the same
public name after prefix-stripping, name arbitration gives the handle the bare
stripped name and the struct the stripped name with `Struct` appended — handles
are named before structs, so the handle wins the tie.  (The `Nodup` hypothesis
records that `structs_map` is a Python dict, whose keys are unique.) -/
theorem C8_handle_struct_collision (m : ApiModule) (h s : String)
    (hnd : (RustGenerator.structsKeys m).Nodup)
    (hh : h ∈ RustGenerator.handleTypesOf m)
    (hs : s ∈ RustGenerator.structsKeys m)
    (hsh : s ∉ RustGenerator.handleTypesOf m)
    (heq : RustGenerator.strip_rfx s = RustGenerator.strip_rfx h) :
    alookup h (RustGenerator.preprocessNameMap m) =
      Option.some (RustGenerator.strip_rfx h) ∧
    alookup s (RustGenerator.preprocessNameMap m) =
      Option.some (RustGenerator.strip_rfx s ++ "Struct") :=
  ⟨RustGenerator.preprocess_handle m h hh,
   RustGenerator.preprocess_struct_collision m h s hnd hh hs hsh heq⟩

/-- Witness for C8: opaque `RfxDevice` (a handle) and complete `Rfx_Device` (a
struct) both strip to `Device`; the handle gets `Device`, the struct
`DeviceStruct`. -/
theorem C8_handle_struct_collision_witness :
    alookup "RfxDevice"
      (RustGenerator.preprocessNameMap
        ⟨[], [], [("RfxDevice", ⟨"RfxDevice", [], false, true, Option.none⟩),
          ("Rfx_Device", ⟨"Rfx_Device", [], false, false, Option.none⟩)], [], []⟩)
      = Option.some "Device" ∧
    alookup "Rfx_Device"
      (RustGenerator.preprocessNameMap
        ⟨[], [], [("RfxDevice", ⟨"RfxDevice", [], false, true, Option.none⟩),
          ("Rfx_Device", ⟨"Rfx_Device", [], false, false, Option.none⟩)], [], []⟩)
      = Option.some "DeviceStruct" :=
  C8_handle_struct_collision
    ⟨[], [], [("RfxDevice", ⟨"RfxDevice", [], false, true, Option.none⟩),
      ("Rfx_Device", ⟨"Rfx_Device", [], false, false, Option.none⟩)], [], []⟩
    "RfxDevice" "Rfx_Device" (by decide) (by decide) (by decide) (by decide) (by decide)

/-- **C9.**  When two distinct handle type names strip to the same public
identifier, name arbitration gives both handles that identical bare name, with
no disambiguating suffix: no collision check is performed within the handle
category itself. -/
theorem C9_handle_handle_collision (m : ApiModule) (h1 h2 : String) (_hne : h1 ≠ h2)
    (hh1 : h1 ∈ RustGenerator.handleTypesOf m)
    (hh2 : h2 ∈ RustGenerator.handleTypesOf m)
    (heq : RustGenerator.strip_rfx h1 = RustGenerator.strip_rfx h2) :
    alookup h1 (RustGenerator.preprocessNameMap m) =
      Option.some (RustGenerator.strip_rfx h1) ∧
    alookup h2 (RustGenerator.preprocessNameMap m) =
      Option.some (RustGenerator.strip_rfx h1) :=
  ⟨RustGenerator.preprocess_handle m h1 hh1,
   by rw [heq]; exact RustGenerator.preprocess_handle m h2 hh2⟩

/-- Witness for C9: the distinct opaque structs `RfxFoo` and `Rfx_Foo` both strip
to `Foo` and both receive exactly the public name `Foo`. -/
theorem C9_handle_handle_collision_witness :
    alookup "RfxFoo"
      (RustGenerator.preprocessNameMap
        ⟨[], [], [("RfxFoo", ⟨"RfxFoo", [], false, true, Option.none⟩),
          ("Rfx_Foo", ⟨"Rfx_Foo", [], false, true, Option.none⟩)], [], []⟩)
      = Option.some "Foo" ∧
    alookup "Rfx_Foo"
      (RustGenerator.preprocessNameMap
        ⟨[], [], [("RfxFoo", ⟨"RfxFoo", [], false, true, Option.none⟩),
          ("Rfx_Foo", ⟨"Rfx_Foo", [], false, true, Option.none⟩)], [], []⟩)
      = Option.some "Foo" :=
  C9_handle_handle_collision
    ⟨[], [], [("RfxFoo", ⟨"RfxFoo", [], false, true, Option.none⟩),
      ("Rfx_Foo", ⟨"Rfx_Foo", [], false, true, Option.none⟩)], [], []⟩
    "RfxFoo" "Rfx_Foo" (by decide) (by decide) (by decide) (by decide)

end Rafx
